import Mathlib

/-!
Verification of the PNG chunk rewriter `convert_to_ios.py`.

Shallow embedding: byte strings are `List Nat` (each element a byte value),
machine-integer wraparound is written with explicit `% 2 ^ 32`, fallible
operations return `Option`, and the two raw byte-walking loops of the source
(`extract_chunks_from_png` and `insert_chunk_after`) are written with an
explicit fuel argument equal to the buffer length; the loops advance by at
least 12 bytes per iteration, so this fuel is never exhausted (the lemmas
below prove behaviour for every sufficient fuel, and the entry points always
supply a sufficient one).

The orchestrator `convert_android_to_ios` performs file I/O and two external
subprocess calls.  It is embedded as a pure state-transformer over an
association-list file system, with the two collaborators (the PIL re-encoder
for non-PNG inputs, and the exiftool invocation) abstracted as oracle data
carried in `ConvEnv`, exactly following the source's control flow.
-/

/-- Big-endian interpretation of a byte list, as in `struct.unpack of >I`
(each element is reduced mod 256, matching the byte type of the source). -/
def bytesToNatBE (l : List Nat) : Nat :=
  l.foldl (fun a b => a * 256 + b % 256) 0

/-- `struct.pack of >I`: the four big-endian bytes of a 32-bit value. -/
def pack32 (n : Nat) : List Nat :=
  [n / 16777216 % 256, n / 65536 % 256, n / 256 % 256, n % 256]

/-- The 8-byte PNG signature `\x89PNG\r\n\x1a\n`. -/
def pngSignature : List Nat := [137, 80, 78, 71, 13, 10, 26, 10]

/-- The 4-byte chunk type tag `IHDR`. -/
def ihdrType : List Nat := [73, 72, 68, 82]

/-- The 4-byte chunk type tag `sRGB`. -/
def srgbType : List Nat := [115, 82, 71, 66]

/-- The 4-byte chunk type tag `IDAT`. -/
def idatType : List Nat := [73, 68, 65, 84]

/-- The 4-byte chunk type tag `IEND`. -/
def iendType : List Nat := [73, 69, 78, 68]

/-- The 4-byte chunk type tag `eXIf`. -/
def exifType : List Nat := [101, 88, 73, 102]

/-- The 4-byte chunk type tag `pHYs`. -/
def physType : List Nat := [112, 72, 89, 115]

/-- The 4-byte chunk type tag `sBIT`. -/
def sbitType : List Nat := [115, 66, 73, 84]

/-- One step of the bitwise CRC-32 computation (reflected polynomial
`0xEDB88320`), the specification of `zlib.crc32`. -/
def crc32Step (c : Nat) : Nat :=
  if c % 2 = 1 then 0xEDB88320 ^^^ (c / 2) else c / 2

/-- Folding one byte into the CRC-32 accumulator: xor the byte in, then
run eight bit steps. -/
def crc32Byte (c b : Nat) : Nat :=
  crc32Step (crc32Step (crc32Step (crc32Step
    (crc32Step (crc32Step (crc32Step (crc32Step (c ^^^ b))))))))

/-- `zlib.crc32` over a byte list: fold with initial value `0xFFFFFFFF`
and final complement. -/
def crc32 (data : List Nat) : Nat :=
  (data.foldl crc32Byte 0xFFFFFFFF) ^^^ 0xFFFFFFFF

/-- `create_png_chunk(chunk_type, data)`:
`pack('>I', len(data)) + chunk_type + data + pack('>I', crc32(chunk_type + data) & 0xffffffff)`
(the `& 0xffffffff` mask is written as `% 2 ^ 32`). -/
def create_png_chunk (chunk_type data : List Nat) : List Nat :=
  pack32 data.length ++ chunk_type ++ data ++ pack32 (crc32 (chunk_type ++ data) % 2 ^ 32)

/-- A parsed chunk: (type tag, payload). -/
abbrev Chunk := List Nat × List Nat

/-- The scanning loop of `extract_chunks_from_png`:
`while i < len(data) - 12`, read a 4-byte big-endian size, a 4-byte type and
`size` payload bytes, append the chunk, advance by `12 + size`, and break
after appending an `IEND` chunk.  The extra fuel argument only forces
termination; the entry point passes `data.length`, which is never exhausted
since each iteration advances `i` by at least 12. -/
def extractLoop (data : List Nat) : Nat → Nat → List Chunk
  | _, 0 => []
  | i, fuel + 1 =>
    if i < data.length - 12 then
      let size := bytesToNatBE ((data.drop i).take 4)
      let ctype := (data.drop (i + 4)).take 4
      let cdata := (data.drop (i + 8)).take size
      if ctype = iendType then [(ctype, cdata)]
      else (ctype, cdata) :: extractLoop data (i + 12 + size) fuel
    else []

/-- `extract_chunks_from_png`: check the 8-byte signature (raising
`ValueError`, modelled as `none`, when it does not match), then scan from
offset 8. -/
def extract_chunks_from_png (data : List Nat) : Option (List Chunk) :=
  if data.take 8 = pngSignature then some (extractLoop data 8 data.length)
  else none

/-- The anchor-searching loop of `insert_chunk_after`: walk the chunk
records from offset 8; on the first chunk whose type equals
`insert_after_chunk` return the offset just past its framed record
(`chunk_end = i + 12 + size`); return `none` when the guard
`i < len(png_data) - 12` fails first.  Fuel as in `extractLoop`. -/
def findInsertPos (png_data insert_after_chunk : List Nat) : Nat → Nat → Option Nat
  | _, 0 => none
  | i, fuel + 1 =>
    if i < png_data.length - 12 then
      let size := bytesToNatBE ((png_data.drop i).take 4)
      let ctype := (png_data.drop (i + 4)).take 4
      if ctype = insert_after_chunk then some (i + 12 + size)
      else findInsertPos png_data insert_after_chunk (i + 12 + size) fuel
    else none

/-- `insert_chunk_after(png_data, insert_after_chunk, new_chunk_type, new_chunk_data)`:
splice the newly encoded chunk at the offset found by the anchor scan, or at
`len(png_data) - 12` when the anchor was not found. -/
def insert_chunk_after (png_data insert_after_chunk new_chunk_type new_chunk_data : List Nat) :
    List Nat :=
  let insert_pos :=
    (findInsertPos png_data insert_after_chunk 8 png_data.length).getD (png_data.length - 12)
  png_data.take insert_pos ++ create_png_chunk new_chunk_type new_chunk_data ++
    png_data.drop insert_pos

/-- The classification accumulator of `convert_android_to_ios` (lines
158-173): mutable `ihdr_chunk`, `srgb_chunk`, `idat_chunks`, `other_chunks`. -/
structure Classified where
  ihdr : Option Chunk
  srgb : Option Chunk
  idat : List Chunk
  other : List Chunk
deriving DecidableEq

/-- Initial classification state. -/
def Classified.init : Classified := ⟨none, none, [], []⟩

/-- One iteration of the classification loop: the `if`/`elif` chain over a
chunk's type; overwriting assignment for IHDR and sRGB, append for IDAT and
for "other" chunks, and silent drop for IEND, eXIf, pHYs and sBIT. -/
def classifyStep (st : Classified) (c : Chunk) : Classified :=
  if c.1 = ihdrType then { st with ihdr := some c }
  else if c.1 = srgbType then { st with srgb := some c }
  else if c.1 = idatType then { st with idat := st.idat ++ [c] }
  else if c.1 = iendType ∨ c.1 = exifType ∨ c.1 = physType ∨ c.1 = sbitType then st
  else { st with other := st.other ++ [c] }

/-- The classification loop over the extracted chunk list. -/
def classify (chunks : List Chunk) : Classified :=
  chunks.foldl classifyStep Classified.init

/-- Frame a list of chunks: concatenation of their encodings. -/
def frameChunks (cs : List Chunk) : List Nat :=
  (cs.map (fun c => create_png_chunk c.1 c.2)).flatten

/-- A whole PNG buffer: signature followed by framed chunks. -/
def framePNG (cs : List Chunk) : List Nat :=
  pngSignature ++ frameChunks cs

/-- Step 1 of `convert_android_to_ios` (lines 175-197): write the signature,
the IHDR chunk if present, the sRGB chunk (or a synthesized one with single
payload byte 0), the "other" chunks, the IDAT chunks, and an empty IEND. -/
def assembleClassified (st : Classified) : List Nat :=
  pngSignature ++
  (match st.ihdr with
   | some c => create_png_chunk c.1 c.2
   | none => []) ++
  (match st.srgb with
   | some c => create_png_chunk c.1 c.2
   | none => create_png_chunk srgbType [0]) ++
  frameChunks st.other ++
  frameChunks st.idat ++
  create_png_chunk iendType []

/-- The preassemble stage: decode a buffer and reassemble it, before any
EXIF/pHYs/sBIT insertion (`none` when the signature check fails). -/
def preassemble (data : List Nat) : Option (List Nat) :=
  (extract_chunks_from_png data).map (fun cs => assembleClassified (classify cs))

/-- pHYs payload synthesized by the orchestrator:
`struct.pack('>IIB', 5669, 5669, 1)`. -/
def physData : List Nat := pack32 5669 ++ pack32 5669 ++ [1]

/-- sBIT payload synthesized by the orchestrator: `struct.pack('BBB', 8, 8, 8)`. -/
def sbitData : List Nat := [8, 8, 8]

/-- Step 3/4 of `convert_android_to_ios` (lines 247-274): re-extract the
chunks of the exiftool output (raising, i.e. `none`, when its signature is
invalid), then insert pHYs after eXIf unless a pHYs chunk was extracted, and
insert sBIT after pHYs unless an sBIT chunk was extracted (both presence
checks use the chunk list extracted before either insertion). -/
def reposition (buf : List Nat) : Option (List Nat) :=
  match extract_chunks_from_png buf with
  | none => none
  | some temp_chunks =>
    let has_phys := temp_chunks.any (fun c => c.1 = physType)
    let d1 := if has_phys then buf else insert_chunk_after buf exifType physType physData
    let has_sbit := temp_chunks.any (fun c => c.1 = sbitType)
    some (if has_sbit then d1 else insert_chunk_after d1 physType sbitType sbitData)

/-- Association-list file system: path to byte contents. -/
structure FS where
  files : List (String × List Nat)
deriving DecidableEq

/-- Write (create or overwrite) a file. -/
def FS.write (fs : FS) (p : String) (b : List Nat) : FS :=
  ⟨(p, b) :: fs.files.filter (fun e => ¬ e.1 = p)⟩

/-- Remove a file (no-op when absent, matching the guarded
`os.path.exists`/`os.remove` pattern of the source). -/
def FS.remove (fs : FS) (p : String) : FS :=
  ⟨fs.files.filter (fun e => ¬ e.1 = p)⟩

/-- Read a file's contents. -/
def FS.read (fs : FS) (p : String) : Option (List Nat) :=
  (fs.files.find? (fun e => e.1 = p)).map Prod.snd

/-- Outcome of the exiftool invocation (step 2): success (with the
in-place transformation it applies to the temporary file), non-zero exit
(`subprocess.CalledProcessError`), or absence from the execution path
(`FileNotFoundError`). -/
inductive ExifOutcome where
  | ok (transform : List Nat → List Nat)
  | exitNonZero
  | toolNotFound

/-- Oracle data for one conversion: the input file's bytes, the PNG bytes
the PIL re-encoder would produce for a non-PNG input, the exiftool outcome,
and the best-effort orientation-fix exiftool call on the destination
(`some g` when it succeeds and applies `g`, `none` when it fails and is
swallowed by the bare `except`). -/
structure ConvEnv where
  inputBytes : List Nat
  pilPng : List Nat
  exiftool : ExifOutcome
  orientFix : Option (List Nat → List Nat)

/-- Result of a conversion call: the returned destination path, a `None`
return, or an exception propagating out of the call. -/
inductive ConvRet where
  | path (p : String)
  | failed
  | raised
deriving DecidableEq

/-- `convert_android_to_ios(input_path, output_path)` as a state
transformer: given the batch-mode flag, the destination path, the oracle
environment and the file system, produce the final file system, the return
value, and the log of gated diagnostic output (date derivation and the two
read-only verification subprocesses touch no file contents and are folded
into log entries).  Control flow follows the source line by line: format
check, PIL transcoding temporary for non-PNG input, chunk extraction
(raising on a bad signature), preassembly, write of `<output>.temp1`,
exiftool (removing `.temp1` and returning `None` on either failure),
reposition (raising if the tool's output lost the signature), final write,
removal of `.temp1`, removal of the transcoding temporary, and the
best-effort orientation fix on the destination. -/
def convert (batch : Bool) (outputPath : String) (env : ConvEnv) (fs0 : FS) :
    FS × ConvRet × List String :=
  let isPng := env.inputBytes.take 8 = pngSignature
  let tempPng := outputPath ++ ".temp_png"
  let temp1 := outputPath ++ ".temp1"
  let log0 := if isPng then []
    else if batch then [] else ["detected non-PNG, converting", "converted to PNG"]
  let fs1 := if isPng then fs0 else fs0.write tempPng env.pilPng
  let srcBytes := if isPng then env.inputBytes else env.pilPng
  let log1 := log0 ++ (if batch then [] else ["original date"])
  match extract_chunks_from_png srcBytes with
  | none => (fs1, ConvRet.raised, log1)
  | some chunks =>
    let preBytes := assembleClassified (classify chunks)
    let fs2 := fs1.write temp1 preBytes
    match env.exiftool with
    | ExifOutcome.exitNonZero =>
      (fs2.remove temp1, ConvRet.failed, log1 ++ ["exiftool failed"])
    | ExifOutcome.toolNotFound =>
      (fs2.remove temp1, ConvRet.failed, log1 ++ ["exiftool not installed", "install hint"])
    | ExifOutcome.ok f =>
      let png2 := f preBytes
      let fs3 := fs2.write temp1 png2
      let log2 := log1 ++ (if batch then [] else ["exiftool ok"])
      match reposition png2 with
      | none => (fs3, ConvRet.raised, log2)
      | some png3 =>
        let fs4 := (fs3.write outputPath png3).remove temp1
        let fs5 := if isPng then fs4 else fs4.remove tempPng
        let fs6 := match env.orientFix with
          | some g => fs5.write outputPath (g png3)
          | none => fs5
        let log3 := log2 ++ (if batch then [] else ["verify description", "chunk order"])
        (fs6, ConvRet.path outputPath, log3)

/-! ### Basic byte-arithmetic and list-segment lemmas -/

theorem pack32_length (n : Nat) : (pack32 n).length = 4 := rfl

theorem bytesToNatBE_pack32 (n : Nat) (h : n < 2 ^ 32) : bytesToNatBE (pack32 n) = n := by
  simp only [bytesToNatBE, pack32, List.foldl]
  omega

theorem create_png_chunk_length (t d : List Nat) (h : t.length = 4) :
    (create_png_chunk t d).length = 12 + d.length := by
  simp [create_png_chunk, pack32, h]
  omega

theorem drop_append_len (A X : List Nat) (n : Nat) (h : A.length = n) :
    (A ++ X).drop n = X := List.drop_left' h

theorem take_append_len (A X : List Nat) (n : Nat) (h : A.length = n) :
    (A ++ X).take n = A := List.take_left' h

theorem drop_append_add (A X : List Nat) (n k : Nat) (h : A.length = n) :
    (A ++ X).drop (n + k) = X.drop k := by
  rw [← List.drop_drop k n (A ++ X), drop_append_len A X n h]

theorem frameChunks_nil : frameChunks [] = [] := rfl

theorem frameChunks_cons (c : Chunk) (cs : List Chunk) :
    frameChunks (c :: cs) = create_png_chunk c.1 c.2 ++ frameChunks cs := by
  simp [frameChunks]

theorem frameChunks_append (a b : List Chunk) :
    frameChunks (a ++ b) = frameChunks a ++ frameChunks b := by
  simp [frameChunks]

theorem frameChunks_length_ge (cs : List Chunk) (h4 : ∀ c ∈ cs, c.1.length = 4) :
    12 * cs.length ≤ (frameChunks cs).length := by
  induction cs with
  | nil => simp [frameChunks_nil]
  | cons c rest ih =>
    rw [frameChunks_cons]
    have hc := h4 c (List.mem_cons_self c rest)
    have := ih (fun x hx => h4 x (List.mem_cons_of_mem c hx))
    simp [create_png_chunk_length c.1 c.2 hc]
    omega

/-- Reading the three fields of a framed chunk record that starts right
after a prefix `P`. -/
theorem chunk_fields_at (P t d tail : List Nat)
    (h4 : t.length = 4) (hlen : d.length < 2 ^ 32) :
    bytesToNatBE (((P ++ (create_png_chunk t d ++ tail)).drop P.length).take 4) = d.length ∧
    ((P ++ (create_png_chunk t d ++ tail)).drop (P.length + 4)).take 4 = t ∧
    ((P ++ (create_png_chunk t d ++ tail)).drop (P.length + 8)).take d.length = d := by
  have hshape : create_png_chunk t d ++ tail =
      pack32 d.length ++ (t ++ (d ++ (pack32 (crc32 (t ++ d) % 2 ^ 32) ++ tail))) := by
    simp [create_png_chunk]
  refine ⟨?_, ?_, ?_⟩
  · rw [drop_append_len P _ P.length rfl, hshape,
      take_append_len _ _ 4 (pack32_length _), bytesToNatBE_pack32 _ hlen]
  · rw [drop_append_add P _ P.length 4 rfl, hshape,
      drop_append_len (pack32 d.length) _ 4 (pack32_length _),
      take_append_len _ _ 4 h4]
  · rw [drop_append_add P _ P.length 8 rfl, hshape]
    have h8 : (8 : Nat) = 4 + 4 := rfl
    rw [h8, drop_append_add (pack32 d.length) _ 4 4 (pack32_length _),
      drop_append_len t _ 4 h4, take_append_len _ _ d.length rfl]

/-! ### Behaviour of the scanning loop on framed chunk streams -/

theorem frameChunks_cons_mk (t d : List Nat) (cs : List Chunk) :
    frameChunks ((t, d) :: cs) = create_png_chunk t d ++ frameChunks cs := by
  simp [frameChunks]

/-- The scan of a framed chunk stream `body ++ [IEND]` laid after an
arbitrary prefix `P` and followed by `garbage`: every `body` chunk is
yielded in order; the terminal chunk is yielded exactly when at least one
byte of trailing data follows its framed record (its record otherwise
begins at offset `length - 12`, where the loop guard stops). -/
theorem extractLoop_frame (body : List Chunk) :
    ∀ (P garbage : List Nat) (fuel : Nat),
    (∀ c ∈ body, c.1.length = 4 ∧ c.2.length < 2 ^ 32 ∧ ¬ c.1 = iendType) →
    (P ++ (frameChunks (body ++ [(iendType, [])]) ++ garbage)).length
      ≤ P.length + 12 * fuel + 12 →
    extractLoop (P ++ (frameChunks (body ++ [(iendType, [])]) ++ garbage)) P.length fuel
      = body ++ (if garbage = [] then [] else [(iendType, [])]) := by
  induction body with
  | nil =>
    intro P garbage fuel hgood hfuel
    rw [List.nil_append, frameChunks_cons_mk, frameChunks_nil, List.append_nil] at hfuel ⊢
    have hE : (create_png_chunk iendType []).length = 12 :=
      create_png_chunk_length iendType [] rfl
    have hbuf : (P ++ (create_png_chunk iendType [] ++ garbage)).length
        = P.length + 12 + garbage.length := by
      simp only [List.length_append, hE]; omega
    rw [hbuf] at hfuel
    cases fuel with
    | zero =>
      have hg : garbage = [] := List.length_eq_zero.mp (by omega)
      simp [extractLoop, hg]
    | succ f =>
      by_cases hg : garbage = []
      · subst hg
        simp only [extractLoop]
        rw [if_neg (by rw [hbuf]; simp only [List.length_nil]; omega)]
        simp
      · have hglen : 0 < garbage.length := List.length_pos.mpr hg
        obtain ⟨hsize, htype, -⟩ :=
          chunk_fields_at P iendType [] garbage rfl (by norm_num)
        simp only [extractLoop]
        rw [if_pos (by rw [hbuf]; omega), htype, hsize]
        simp [hg]
  | cons c rest ih =>
    intro P garbage fuel hgood hfuel
    obtain ⟨t, d⟩ := c
    have h4 : t.length = 4 := (hgood (t, d) (List.mem_cons_self _ _)).1
    have hdlen : d.length < 2 ^ 32 := (hgood (t, d) (List.mem_cons_self _ _)).2.1
    have htne : ¬ t = iendType := (hgood (t, d) (List.mem_cons_self _ _)).2.2
    have hrest : ∀ x ∈ rest, x.1.length = 4 ∧ x.2.length < 2 ^ 32 ∧ ¬ x.1 = iendType :=
      fun x hx => hgood x (List.mem_cons_of_mem _ hx)
    have hshape : frameChunks (((t, d) :: rest) ++ [(iendType, [])]) ++ garbage
        = create_png_chunk t d ++ (frameChunks (rest ++ [(iendType, [])]) ++ garbage) := by
      rw [List.cons_append, frameChunks_cons_mk, List.append_assoc]
    rw [hshape] at hfuel ⊢
    have hEc : (create_png_chunk t d).length = 12 + d.length :=
      create_png_chunk_length t d h4
    have hrestlen : 12 ≤ (frameChunks (rest ++ [(iendType, [])])).length := by
      have h := frameChunks_length_ge (rest ++ [(iendType, [])]) (by
        intro x hx
        rcases List.mem_append.mp hx with h | h
        · exact (hrest x h).1
        · simp at h; rw [h]; rfl)
      have h1 : (rest ++ [(iendType, [])]).length = rest.length + 1 := by simp
      omega
    have hbuf :
        (P ++ (create_png_chunk t d ++ (frameChunks (rest ++ [(iendType, [])]) ++ garbage))).length
        = P.length + (12 + d.length)
          + ((frameChunks (rest ++ [(iendType, [])])).length + garbage.length) := by
      simp only [List.length_append, hEc]; omega
    rw [hbuf] at hfuel
    cases fuel with
    | zero => exfalso; omega
    | succ f =>
      obtain ⟨hsize, htype, hdata⟩ :=
        chunk_fields_at P t d (frameChunks (rest ++ [(iendType, [])]) ++ garbage) h4 hdlen
      simp only [extractLoop]
      rw [if_pos (by rw [hbuf]; omega), htype, hsize, hdata, if_neg htne]
      have hP2 : P.length + 12 + d.length = (P ++ create_png_chunk t d).length := by
        simp only [List.length_append, hEc]; omega
      have hassoc :
          P ++ (create_png_chunk t d ++ (frameChunks (rest ++ [(iendType, [])]) ++ garbage))
          = (P ++ create_png_chunk t d) ++ (frameChunks (rest ++ [(iendType, [])]) ++ garbage) :=
        (List.append_assoc _ _ _).symm
      rw [hP2, hassoc, ih (P ++ create_png_chunk t d) garbage f hrest (by
        rw [← hassoc, hbuf]
        simp only [List.length_append, hEc]
        omega)]
      simp

/-- Entry-point form of `extractLoop_frame`: decoding a well-formed PNG
buffer (with optional trailing garbage). -/
theorem extract_frame (body : List Chunk) (garbage : List Nat)
    (hgood : ∀ c ∈ body, c.1.length = 4 ∧ c.2.length < 2 ^ 32 ∧ ¬ c.1 = iendType) :
    extract_chunks_from_png (framePNG (body ++ [(iendType, [])]) ++ garbage)
      = some (body ++ (if garbage = [] then [] else [(iendType, [])])) := by
  have hshape : framePNG (body ++ [(iendType, [])]) ++ garbage
      = pngSignature ++ (frameChunks (body ++ [(iendType, [])]) ++ garbage) := by
    rw [framePNG, List.append_assoc]
  rw [hshape, extract_chunks_from_png,
    if_pos (take_append_len pngSignature _ 8 rfl)]
  have h8 : (8 : Nat) = pngSignature.length := rfl
  rw [h8, extractLoop_frame body pngSignature garbage _ hgood (by omega)]

/-- The anchor scan never matches when no chunk strictly before the
terminal record has the anchor type: the zero-payload terminal chunk's
record begins at offset `length - 12`, which the loop guard excludes. -/
theorem findInsertPos_frame_none (body : List Chunk) :
    ∀ (P anchor : List Nat) (fuel : Nat),
    (∀ c ∈ body, c.1.length = 4 ∧ c.2.length < 2 ^ 32 ∧ ¬ c.1 = anchor) →
    findInsertPos (P ++ frameChunks (body ++ [(iendType, [])])) anchor P.length fuel
      = none := by
  induction body with
  | nil =>
    intro P anchor fuel hgood
    rw [List.nil_append, frameChunks_cons_mk, frameChunks_nil, List.append_nil]
    have hE : (create_png_chunk iendType []).length = 12 :=
      create_png_chunk_length iendType [] rfl
    cases fuel with
    | zero => rfl
    | succ f =>
      simp only [findInsertPos]
      rw [if_neg (by simp only [List.length_append, hE]; omega)]
  | cons c rest ih =>
    intro P anchor fuel hgood
    obtain ⟨t, d⟩ := c
    have h4 : t.length = 4 := (hgood (t, d) (List.mem_cons_self _ _)).1
    have hdlen : d.length < 2 ^ 32 := (hgood (t, d) (List.mem_cons_self _ _)).2.1
    have htne : ¬ t = anchor := (hgood (t, d) (List.mem_cons_self _ _)).2.2
    have hrest : ∀ x ∈ rest, x.1.length = 4 ∧ x.2.length < 2 ^ 32 ∧ ¬ x.1 = anchor :=
      fun x hx => hgood x (List.mem_cons_of_mem _ hx)
    have hshape : frameChunks (((t, d) :: rest) ++ [(iendType, [])])
        = create_png_chunk t d ++ frameChunks (rest ++ [(iendType, [])]) := by
      rw [List.cons_append, frameChunks_cons_mk]
    rw [hshape]
    have hEc : (create_png_chunk t d).length = 12 + d.length :=
      create_png_chunk_length t d h4
    have hrestlen : 12 ≤ (frameChunks (rest ++ [(iendType, [])])).length := by
      have h := frameChunks_length_ge (rest ++ [(iendType, [])]) (by
        intro x hx
        rcases List.mem_append.mp hx with h | h
        · exact (hrest x h).1
        · simp at h; rw [h]; rfl)
      have h1 : (rest ++ [(iendType, [])]).length = rest.length + 1 := by simp
      omega
    cases fuel with
    | zero => rfl
    | succ f =>
      obtain ⟨hsize, htype, -⟩ :=
        chunk_fields_at P t d (frameChunks (rest ++ [(iendType, [])])) h4 hdlen
      simp only [findInsertPos]
      rw [if_pos (by simp only [List.length_append, hEc]; omega), htype, hsize,
        if_neg htne]
      have hP2 : P.length + 12 + d.length = (P ++ create_png_chunk t d).length := by
        simp only [List.length_append, hEc]; omega
      have hassoc : P ++ (create_png_chunk t d ++ frameChunks (rest ++ [(iendType, [])]))
          = (P ++ create_png_chunk t d) ++ frameChunks (rest ++ [(iendType, [])]) :=
        (List.append_assoc _ _ _).symm
      rw [hP2, hassoc, ih (P ++ create_png_chunk t d) anchor f hrest]

/-- The anchor scan finds the first chunk whose type equals the anchor and
returns the offset just past its framed record, provided at least one full
record (12 bytes or more) follows it. -/
theorem findInsertPos_frame_found (pre : List Chunk) :
    ∀ (P anchor pa tail : List Nat) (fuel : Nat),
    (∀ c ∈ pre, c.1.length = 4 ∧ c.2.length < 2 ^ 32 ∧ ¬ c.1 = anchor) →
    anchor.length = 4 → pa.length < 2 ^ 32 → 12 ≤ tail.length →
    (P ++ (frameChunks pre ++ (create_png_chunk anchor pa ++ tail))).length
      ≤ P.length + 12 * fuel + 12 →
    findInsertPos (P ++ (frameChunks pre ++ (create_png_chunk anchor pa ++ tail)))
        anchor P.length fuel
      = some (P.length + (frameChunks pre).length + 12 + pa.length) := by
  induction pre with
  | nil =>
    intro P anchor pa tail fuel hgood h4 hpa htail hfuel
    rw [frameChunks_nil, List.nil_append] at hfuel ⊢
    have hEa : (create_png_chunk anchor pa).length = 12 + pa.length :=
      create_png_chunk_length anchor pa h4
    have hbuf : (P ++ (create_png_chunk anchor pa ++ tail)).length
        = P.length + (12 + pa.length) + tail.length := by
      simp only [List.length_append, hEa]; omega
    rw [hbuf] at hfuel
    cases fuel with
    | zero => exfalso; omega
    | succ f =>
      obtain ⟨hsize, htype, -⟩ := chunk_fields_at P anchor pa tail h4 hpa
      simp only [findInsertPos]
      rw [if_pos (by rw [hbuf]; omega), htype, hsize, if_pos rfl]
      simp
  | cons c rest ih =>
    intro P anchor pa tail fuel hgood h4 hpa htail hfuel
    obtain ⟨t, d⟩ := c
    have ht4 : t.length = 4 := (hgood (t, d) (List.mem_cons_self _ _)).1
    have hdlen : d.length < 2 ^ 32 := (hgood (t, d) (List.mem_cons_self _ _)).2.1
    have htne : ¬ t = anchor := (hgood (t, d) (List.mem_cons_self _ _)).2.2
    have hrest : ∀ x ∈ rest, x.1.length = 4 ∧ x.2.length < 2 ^ 32 ∧ ¬ x.1 = anchor :=
      fun x hx => hgood x (List.mem_cons_of_mem _ hx)
    have hshape : frameChunks ((t, d) :: rest) ++ (create_png_chunk anchor pa ++ tail)
        = create_png_chunk t d ++ (frameChunks rest ++ (create_png_chunk anchor pa ++ tail)) := by
      rw [frameChunks_cons_mk, List.append_assoc]
    rw [hshape] at hfuel ⊢
    have hEc : (create_png_chunk t d).length = 12 + d.length :=
      create_png_chunk_length t d ht4
    have hEa : (create_png_chunk anchor pa).length = 12 + pa.length :=
      create_png_chunk_length anchor pa h4
    have hbuf : (P ++ (create_png_chunk t d
          ++ (frameChunks rest ++ (create_png_chunk anchor pa ++ tail)))).length
        = P.length + (12 + d.length)
          + ((frameChunks rest).length + ((12 + pa.length) + tail.length)) := by
      simp only [List.length_append, hEc, hEa]; omega
    rw [hbuf] at hfuel
    cases fuel with
    | zero => exfalso; omega
    | succ f =>
      obtain ⟨hsize, htype, -⟩ :=
        chunk_fields_at P t d (frameChunks rest ++ (create_png_chunk anchor pa ++ tail)) ht4 hdlen
      simp only [findInsertPos]
      rw [if_pos (by rw [hbuf]; omega), htype, hsize, if_neg htne]
      have hP2 : P.length + 12 + d.length = (P ++ create_png_chunk t d).length := by
        simp only [List.length_append, hEc]; omega
      have hassoc : P ++ (create_png_chunk t d
            ++ (frameChunks rest ++ (create_png_chunk anchor pa ++ tail)))
          = (P ++ create_png_chunk t d)
            ++ (frameChunks rest ++ (create_png_chunk anchor pa ++ tail)) :=
        (List.append_assoc _ _ _).symm
      rw [hP2, hassoc, ih (P ++ create_png_chunk t d) anchor pa tail f hrest h4 hpa htail (by
        rw [← hassoc, hbuf]
        simp only [List.length_append, hEc]
        omega)]
      rw [frameChunks_cons_mk]
      simp only [Option.some.injEq, List.length_append, hEc]
      omega

/-! ### Positional insertion (claims C3, C4, C10) -/

theorem enc_iend_length : (create_png_chunk iendType []).length = 12 :=
  create_png_chunk_length iendType [] rfl

theorem framePNG_last (cs : List Chunk) :
    framePNG (cs ++ [(iendType, [])])
      = (pngSignature ++ frameChunks cs) ++ create_png_chunk iendType [] := by
  simp [framePNG, frameChunks_append, frameChunks_cons_mk, frameChunks_nil,
    List.append_assoc]

/-- C3: on a buffer whose chunk stream is `pre ++ anchor ++ post ++ IEND`
with no anchor-typed chunk in `pre`, `insert_chunk_after` splices the newly
encoded chunk immediately after the first anchor chunk's framed record; a
chunk of the new type then occurs exactly once (given it occurred nowhere
in the input). -/
theorem C3_insert_after_anchor (pre post : List Chunk) (anchor pa t p : List Nat)
    (hpre : ∀ c ∈ pre, c.1.length = 4 ∧ c.2.length < 2 ^ 32 ∧ ¬ c.1 = anchor)
    (h4 : anchor.length = 4) (hpa : pa.length < 2 ^ 32)
    (hnew : ∀ c ∈ pre ++ (anchor, pa) :: (post ++ [(iendType, [])]), ¬ c.1 = t) :
    insert_chunk_after (framePNG (pre ++ (anchor, pa) :: (post ++ [(iendType, [])]))) anchor t p
      = framePNG (pre ++ (anchor, pa) :: (t, p) :: (post ++ [(iendType, [])])) ∧
    (pre ++ (anchor, pa) :: (t, p) :: (post ++ [(iendType, [])])).countP
      (fun c => c.1 = t) = 1 := by
  constructor
  · have hEa : (create_png_chunk anchor pa).length = 12 + pa.length :=
      create_png_chunk_length anchor pa h4
    have htail : 12 ≤ (frameChunks (post ++ [(iendType, [])])).length := by
      rw [frameChunks_append, frameChunks_cons_mk, frameChunks_nil, List.append_nil]
      simp only [List.length_append, enc_iend_length]
      omega
    have hshape : framePNG (pre ++ (anchor, pa) :: (post ++ [(iendType, [])]))
        = pngSignature ++ (frameChunks pre ++ (create_png_chunk anchor pa
            ++ frameChunks (post ++ [(iendType, [])]))) := by
      rw [framePNG, frameChunks_append, frameChunks_cons_mk]
    rw [hshape]
    have hfind : findInsertPos
        (pngSignature ++ (frameChunks pre ++ (create_png_chunk anchor pa
          ++ frameChunks (post ++ [(iendType, [])])))) anchor 8
        (pngSignature ++ (frameChunks pre ++ (create_png_chunk anchor pa
          ++ frameChunks (post ++ [(iendType, [])])))).length
        = some (8 + (frameChunks pre).length + 12 + pa.length) :=
      findInsertPos_frame_found pre pngSignature anchor pa
        (frameChunks (post ++ [(iendType, [])])) _ hpre h4 hpa htail
        (by simp only [List.length_append]; omega)
    simp only [insert_chunk_after]
    rw [hfind]
    simp only [Option.getD_some]
    have hA : pngSignature ++ (frameChunks pre ++ (create_png_chunk anchor pa
          ++ frameChunks (post ++ [(iendType, [])])))
        = (pngSignature ++ (frameChunks pre ++ create_png_chunk anchor pa))
          ++ frameChunks (post ++ [(iendType, [])]) := by
      simp [List.append_assoc]
    have hAlen : (pngSignature ++ (frameChunks pre ++ create_png_chunk anchor pa)).length
        = 8 + (frameChunks pre).length + 12 + pa.length := by
      simp only [List.length_append, hEa]
      have : pngSignature.length = 8 := rfl
      omega
    rw [hA, take_append_len _ _ _ hAlen, drop_append_len _ _ _ hAlen]
    simp [framePNG, frameChunks_append, frameChunks_cons_mk, List.append_assoc]
  · have hpre0 : (pre.countP fun c => decide (c.1 = t)) = 0 :=
      List.countP_eq_zero.mpr (fun c hc => by
        simpa using hnew c (List.mem_append_left _ hc))
    have hpost0 : (post.countP fun c => decide (c.1 = t)) = 0 :=
      List.countP_eq_zero.mpr (fun c hc => by
        have hm : c ∈ pre ++ (anchor, pa) :: (post ++ [(iendType, [])]) :=
          List.mem_append_right _ (List.mem_cons_of_mem _ (List.mem_append_left _ hc))
        simpa using hnew c hm)
    have hat : ¬ anchor = t := by
      simpa using hnew (anchor, pa) (List.mem_append_right _ (List.mem_cons_self _ _))
    have hit : ¬ iendType = t := by
      have hm : (iendType, ([] : List Nat)) ∈ pre ++ (anchor, pa) :: (post ++ [(iendType, [])]) :=
        List.mem_append_right _ (List.mem_cons_of_mem _
          (List.mem_append_right _ (List.mem_singleton_self _)))
      simpa using hnew (iendType, []) hm
    simp [List.countP_append, List.countP_cons, hpre0, hpost0, hat, hit]

/-- C4: on a buffer whose terminal chunk is the literal last 12 bytes and
which contains no chunk of the anchor type, `insert_chunk_after` splices
the newly encoded chunk immediately before the terminal chunk's framed
record. -/
theorem C4_insert_fallback (cs : List Chunk) (anchor t p : List Nat)
    (hcs : ∀ c ∈ cs, c.1.length = 4 ∧ c.2.length < 2 ^ 32)
    (hno : ∀ c ∈ cs ++ [(iendType, [])], ¬ c.1 = anchor) :
    insert_chunk_after (framePNG (cs ++ [(iendType, [])])) anchor t p
      = framePNG (cs ++ [(t, p), (iendType, [])]) := by
  have hgood : ∀ c ∈ cs, c.1.length = 4 ∧ c.2.length < 2 ^ 32 ∧ ¬ c.1 = anchor :=
    fun c hc => ⟨(hcs c hc).1, (hcs c hc).2, hno c (List.mem_append_left _ hc)⟩
  have hfind : findInsertPos (framePNG (cs ++ [(iendType, [])])) anchor 8
      (framePNG (cs ++ [(iendType, [])])).length = none := by
    rw [framePNG]
    exact findInsertPos_frame_none cs pngSignature anchor _ hgood
  simp only [insert_chunk_after]
  rw [hfind]
  simp only [Option.getD_none]
  rw [framePNG_last]
  have hlen : ((pngSignature ++ frameChunks cs) ++ create_png_chunk iendType []).length
      = (pngSignature ++ frameChunks cs).length + 12 := by
    simp only [List.length_append, enc_iend_length]
  have hpos : (pngSignature ++ frameChunks cs).length
      = ((pngSignature ++ frameChunks cs) ++ create_png_chunk iendType []).length - 12 := by
    omega
  rw [take_append_len _ _ _ hpos, drop_append_len _ _ _ hpos]
  simp [framePNG, frameChunks_append, frameChunks_cons_mk, frameChunks_nil,
    List.append_assoc]

/-- C10: the anchor scan never examines a chunk whose framed record begins
within the final 12 bytes: with the terminal chunk as the literal last 12
bytes and the anchor type occurring only as that terminal chunk, the scan
finds nothing and the fallback splices the new chunk immediately before
the terminal chunk. -/
theorem C10_terminal_anchor_unreachable (cs : List Chunk) (t p : List Nat)
    (hcs : ∀ c ∈ cs, c.1.length = 4 ∧ c.2.length < 2 ^ 32 ∧ ¬ c.1 = iendType) :
    findInsertPos (framePNG (cs ++ [(iendType, [])])) iendType 8
      (framePNG (cs ++ [(iendType, [])])).length = none ∧
    insert_chunk_after (framePNG (cs ++ [(iendType, [])])) iendType t p
      = framePNG (cs ++ [(t, p), (iendType, [])]) := by
  have hfind : findInsertPos (framePNG (cs ++ [(iendType, [])])) iendType 8
      (framePNG (cs ++ [(iendType, [])])).length = none := by
    rw [framePNG]
    exact findInsertPos_frame_none cs pngSignature iendType _ hcs
  refine ⟨hfind, ?_⟩
  simp only [insert_chunk_after]
  rw [hfind]
  simp only [Option.getD_none]
  rw [framePNG_last]
  have hpos : (pngSignature ++ frameChunks cs).length
      = ((pngSignature ++ frameChunks cs) ++ create_png_chunk iendType []).length - 12 := by
    simp only [List.length_append, enc_iend_length]
    omega
  rw [take_append_len _ _ _ hpos, drop_append_len _ _ _ hpos]
  simp [framePNG, frameChunks_append, frameChunks_cons_mk, frameChunks_nil,
    List.append_assoc]

/-! ### Classification and preassembly (claim C1) -/

theorem option_some_or {α : Type} (a : α) (b : Option α) : (some a).or b = some a := rfl

theorem option_or_none {α : Type} (a : Option α) : a.or none = a := by
  cases a <;> rfl

/-- A chunk type belonging to the "other" class: none of the seven types
the orchestrator manages explicitly. -/
def isOtherType (tp : List Nat) : Prop :=
  ¬ tp = ihdrType ∧ ¬ tp = srgbType ∧ ¬ tp = idatType ∧
  ¬ tp = iendType ∧ ¬ tp = exifType ∧ ¬ tp = physType ∧ ¬ tp = sbitType

instance (tp : List Nat) : Decidable (isOtherType tp) := by
  unfold isOtherType; infer_instance

/-- The seven managed chunk-type tags are pairwise distinct. -/
theorem tags_distinct :
    (¬ ihdrType = srgbType) ∧
    (¬ ihdrType = idatType) ∧
    (¬ ihdrType = iendType) ∧
    (¬ ihdrType = exifType) ∧
    (¬ ihdrType = physType) ∧
    (¬ ihdrType = sbitType) ∧
    (¬ srgbType = ihdrType) ∧
    (¬ srgbType = idatType) ∧
    (¬ srgbType = iendType) ∧
    (¬ srgbType = exifType) ∧
    (¬ srgbType = physType) ∧
    (¬ srgbType = sbitType) ∧
    (¬ idatType = ihdrType) ∧
    (¬ idatType = srgbType) ∧
    (¬ idatType = iendType) ∧
    (¬ idatType = exifType) ∧
    (¬ idatType = physType) ∧
    (¬ idatType = sbitType) ∧
    (¬ iendType = ihdrType) ∧
    (¬ iendType = srgbType) ∧
    (¬ iendType = idatType) ∧
    (¬ iendType = exifType) ∧
    (¬ iendType = physType) ∧
    (¬ iendType = sbitType) ∧
    (¬ exifType = ihdrType) ∧
    (¬ exifType = srgbType) ∧
    (¬ exifType = idatType) ∧
    (¬ exifType = iendType) ∧
    (¬ exifType = physType) ∧
    (¬ exifType = sbitType) ∧
    (¬ physType = ihdrType) ∧
    (¬ physType = srgbType) ∧
    (¬ physType = idatType) ∧
    (¬ physType = iendType) ∧
    (¬ physType = exifType) ∧
    (¬ physType = sbitType) ∧
    (¬ sbitType = ihdrType) ∧
    (¬ sbitType = srgbType) ∧
    (¬ sbitType = idatType) ∧
    (¬ sbitType = iendType) ∧
    (¬ sbitType = exifType) ∧
    (¬ sbitType = physType) := by
  refine ⟨?_, ?_, ?_, ?_, ?_, ?_, ?_, ?_, ?_, ?_, ?_, ?_, ?_, ?_, ?_, ?_, ?_, ?_, ?_, ?_, ?_,
    ?_, ?_, ?_, ?_, ?_, ?_, ?_, ?_, ?_, ?_, ?_, ?_, ?_, ?_, ?_, ?_, ?_, ?_, ?_, ?_, ?_⟩ <;> decide

theorem getLast?_cons_or {α : Type} (a : α) (l : List α) :
    (a :: l).getLast? = (l.getLast?).or (some a) := by
  induction l generalizing a with
  | nil => rfl
  | cons b t ih =>
    rw [List.getLast?_cons_cons, ih b, Option.or_assoc, option_some_or]

theorem classifyStep_ihdr (st : Classified) (c : Chunk) :
    (classifyStep st c).ihdr = if c.1 = ihdrType then some c else st.ihdr := by
  by_cases h1 : c.1 = ihdrType
  · simp [classifyStep, h1]
  · by_cases h2 : c.1 = srgbType
    · simp [classifyStep, h1, h2, tags_distinct]
    · by_cases h3 : c.1 = idatType
      · simp [classifyStep, h1, h2, h3, tags_distinct]
      · by_cases h4 : c.1 = iendType ∨ c.1 = exifType ∨ c.1 = physType ∨ c.1 = sbitType
        · rcases h4 with h | h | h | h <;>
            simp [classifyStep, h1, h2, h3, h, tags_distinct]
        · push_neg at h4
          obtain ⟨h4a, h4b, h4c, h4d⟩ := h4
          simp [classifyStep, h1, h2, h3, h4a, h4b, h4c, h4d]

theorem classifyStep_srgb (st : Classified) (c : Chunk) :
    (classifyStep st c).srgb = if c.1 = srgbType then some c else st.srgb := by
  by_cases h1 : c.1 = ihdrType
  · simp [classifyStep, h1, tags_distinct]
  · by_cases h2 : c.1 = srgbType
    · simp [classifyStep, h1, h2, tags_distinct]
    · by_cases h3 : c.1 = idatType
      · simp [classifyStep, h1, h2, h3, tags_distinct]
      · by_cases h4 : c.1 = iendType ∨ c.1 = exifType ∨ c.1 = physType ∨ c.1 = sbitType
        · rcases h4 with h | h | h | h <;>
            simp [classifyStep, h1, h2, h3, h, tags_distinct]
        · push_neg at h4
          obtain ⟨h4a, h4b, h4c, h4d⟩ := h4
          simp [classifyStep, h1, h2, h3, h4a, h4b, h4c, h4d]

theorem classifyStep_idat (st : Classified) (c : Chunk) :
    (classifyStep st c).idat = st.idat ++ (if c.1 = idatType then [c] else []) := by
  by_cases h1 : c.1 = ihdrType
  · simp [classifyStep, h1, tags_distinct]
  · by_cases h2 : c.1 = srgbType
    · simp [classifyStep, h1, h2, tags_distinct]
    · by_cases h3 : c.1 = idatType
      · simp [classifyStep, h1, h2, h3, tags_distinct]
      · by_cases h4 : c.1 = iendType ∨ c.1 = exifType ∨ c.1 = physType ∨ c.1 = sbitType
        · rcases h4 with h | h | h | h <;>
            simp [classifyStep, h1, h2, h3, h, tags_distinct]
        · push_neg at h4
          obtain ⟨h4a, h4b, h4c, h4d⟩ := h4
          simp [classifyStep, h1, h2, h3, h4a, h4b, h4c, h4d]

theorem classifyStep_other (st : Classified) (c : Chunk) :
    (classifyStep st c).other = st.other ++ (if isOtherType c.1 then [c] else []) := by
  by_cases h1 : c.1 = ihdrType
  · simp [classifyStep, h1, isOtherType, tags_distinct]
  · by_cases h2 : c.1 = srgbType
    · simp [classifyStep, h1, h2, isOtherType, tags_distinct]
    · by_cases h3 : c.1 = idatType
      · simp [classifyStep, h1, h2, h3, isOtherType, tags_distinct]
      · by_cases h4 : c.1 = iendType ∨ c.1 = exifType ∨ c.1 = physType ∨ c.1 = sbitType
        · rcases h4 with h | h | h | h <;>
            simp [classifyStep, h1, h2, h3, h, isOtherType, tags_distinct]
        · push_neg at h4
          obtain ⟨h4a, h4b, h4c, h4d⟩ := h4
          simp [classifyStep, h1, h2, h3, h4a, h4b, h4c, h4d, isOtherType]

theorem classify_fold_ihdr (cs : List Chunk) : ∀ st : Classified,
    (cs.foldl classifyStep st).ihdr
      = ((cs.filter (fun c => c.1 = ihdrType)).getLast?).or st.ihdr := by
  induction cs with
  | nil => intro st; rfl
  | cons c rest ih =>
    intro st
    rw [List.foldl_cons, ih (classifyStep st c), classifyStep_ihdr, List.filter_cons]
    by_cases hp : c.1 = ihdrType
    · rw [if_pos hp, if_pos (by simp [hp]), getLast?_cons_or, Option.or_assoc, option_some_or]
    · rw [if_neg hp, if_neg (by simp [hp])]

theorem classify_fold_srgb (cs : List Chunk) : ∀ st : Classified,
    (cs.foldl classifyStep st).srgb
      = ((cs.filter (fun c => c.1 = srgbType)).getLast?).or st.srgb := by
  induction cs with
  | nil => intro st; rfl
  | cons c rest ih =>
    intro st
    rw [List.foldl_cons, ih (classifyStep st c), classifyStep_srgb, List.filter_cons]
    by_cases hp : c.1 = srgbType
    · rw [if_pos hp, if_pos (by simp [hp]), getLast?_cons_or, Option.or_assoc, option_some_or]
    · rw [if_neg hp, if_neg (by simp [hp])]

theorem classify_fold_idat (cs : List Chunk) : ∀ st : Classified,
    (cs.foldl classifyStep st).idat
      = st.idat ++ cs.filter (fun c => c.1 = idatType) := by
  induction cs with
  | nil => intro st; simp
  | cons c rest ih =>
    intro st
    rw [List.foldl_cons, ih (classifyStep st c), classifyStep_idat, List.filter_cons]
    by_cases hp : c.1 = idatType
    · rw [if_pos hp, if_pos (by simp [hp])]
      simp
    · rw [if_neg hp, if_neg (by simp [hp])]
      simp

theorem classify_fold_other (cs : List Chunk) : ∀ st : Classified,
    (cs.foldl classifyStep st).other
      = st.other ++ cs.filter (fun c => decide (isOtherType c.1)) := by
  induction cs with
  | nil => intro st; simp
  | cons c rest ih =>
    intro st
    rw [List.foldl_cons, ih (classifyStep st c), classifyStep_other, List.filter_cons]
    by_cases hp : isOtherType c.1
    · rw [if_pos hp, if_pos (by simp [hp])]
      simp
    · rw [if_neg hp, if_neg (by simp [hp])]
      simp

/-- The preassembled chunk order as the claim states it, in terms of the
input chunk list: the header chunks, then the input's color-profile chunk
(or the synthesized default with payload byte 0), then the "other" chunks
in original order, then the pixel-data chunks in original order, then the
empty terminal chunk. -/
def specPreassembleList (cs : List Chunk) : List Chunk :=
  cs.filter (fun c => c.1 = ihdrType) ++
  (if cs.filter (fun c => c.1 = srgbType) = [] then [(srgbType, [0])]
   else cs.filter (fun c => c.1 = srgbType)) ++
  cs.filter (fun c => decide (isOtherType c.1)) ++
  cs.filter (fun c => c.1 = idatType) ++
  [(iendType, [])]

/-- C1: for every decodable PNG input with at most one header chunk and at
most one color-profile chunk, the preassemble stage emits the signature,
then the header chunk (omitted when absent), then the input's sRGB chunk
(or a synthesized one with single payload byte 0 when absent), then every
"other" chunk in original order, then every IDAT chunk in original order,
then an empty IEND; input IEND/eXIf/pHYs/sBIT chunks are excluded from the
"other" class. -/
theorem C1_preassemble_layout (buf : List Nat) (cs : List Chunk)
    (hdec : extract_chunks_from_png buf = some cs)
    (h1 : cs.countP (fun c => c.1 = ihdrType) ≤ 1)
    (h2 : cs.countP (fun c => c.1 = srgbType) ≤ 1) :
    preassemble buf = some (pngSignature ++ frameChunks (specPreassembleList cs)) := by
  have hpre : preassemble buf = some (assembleClassified (classify cs)) := by
    rw [preassemble, hdec]; rfl
  rw [hpre]
  congr 1
  rw [classify, assembleClassified,
    classify_fold_ihdr cs Classified.init, classify_fold_srgb cs Classified.init,
    classify_fold_idat cs Classified.init, classify_fold_other cs Classified.init]
  have hii : Classified.init.ihdr = none := rfl
  have his : Classified.init.srgb = none := rfl
  have hid : Classified.init.idat = [] := rfl
  have hio : Classified.init.other = [] := rfl
  rw [hii, his, hid, hio, option_or_none, option_or_none, List.nil_append, List.nil_append]
  have hl1 : (cs.filter (fun c => decide (c.1 = ihdrType))).length ≤ 1 := by
    rw [← List.countP_eq_length_filter]; exact h1
  have hl2 : (cs.filter (fun c => decide (c.1 = srgbType))).length ≤ 1 := by
    rw [← List.countP_eq_length_filter]; exact h2
  rcases hf1 : cs.filter (fun c => c.1 = ihdrType) with - | ⟨x, xs⟩
  · rcases hf2 : cs.filter (fun c => c.1 = srgbType) with - | ⟨y, ys⟩
    · rw [hf1, hf2]
      simp [specPreassembleList, hf1, hf2, frameChunks_append, frameChunks_cons,
        frameChunks_cons_mk, frameChunks_nil, List.append_assoc]
    · have hys : ys = [] := by
        rw [hf2] at hl2
        simpa using hl2
      subst hys
      rw [hf1, hf2]
      simp [specPreassembleList, hf1, hf2, frameChunks_append, frameChunks_cons,
        frameChunks_cons_mk, frameChunks_nil, List.append_assoc]
  · have hxs : xs = [] := by
      rw [hf1] at hl1
      simpa using hl1
    subst hxs
    rcases hf2 : cs.filter (fun c => c.1 = srgbType) with - | ⟨y, ys⟩
    · rw [hf1, hf2]
      simp [specPreassembleList, hf1, hf2, frameChunks_append, frameChunks_cons,
        frameChunks_cons_mk, frameChunks_nil, List.append_assoc]
    · have hys : ys = [] := by
        rw [hf2] at hl2
        simpa using hl2
      subst hys
      rw [hf1, hf2]
      simp [specPreassembleList, hf1, hf2, frameChunks_append, frameChunks_cons,
        frameChunks_cons_mk, frameChunks_nil, List.append_assoc]

/-! ### Decoder terminal behaviour (claim C2) -/

/-- A 20-byte buffer: signature followed by a zero-payload IEND record that
is the literal last 12 bytes. -/
def c2buf : List Nat := pngSignature ++ ([0, 0, 0, 0] ++ (iendType ++ [0, 0, 0, 0]))

/-- C2 counterexample: a buffer that begins with the PNG signature and
contains a terminal chunk (zero-length IEND record in its last 12 bytes),
on which the decoder yields the empty sequence — the terminal chunk is not
yielded at all, so it is not the last element of the yielded sequence. -/
theorem C2_counterexample :
    c2buf.take 8 = pngSignature ∧
    bytesToNatBE ((c2buf.drop 8).take 4) = 0 ∧
    (c2buf.drop 12).take 4 = iendType ∧
    c2buf.length = 20 ∧
    extract_chunks_from_png c2buf = some [] := by decide

/-- C2 (amended): the decoder stops after yielding the terminal chunk when
at least one byte of trailing data follows the terminal chunk's framed
record (trailing garbage is tolerated and the terminal chunk is the last
yielded element); when the terminal record is the literal end of the
buffer, the loop guard `i < length - 12` stops before reading it, so the
terminal chunk is omitted and exactly the preceding chunks are yielded. -/
theorem C2_decode_stops_at_terminal (body : List Chunk) (garbage : List Nat)
    (hgood : ∀ c ∈ body, c.1.length = 4 ∧ c.2.length < 2 ^ 32 ∧ ¬ c.1 = iendType)
    (hg : ¬ garbage = []) :
    extract_chunks_from_png (framePNG (body ++ [(iendType, [])]) ++ garbage)
      = some (body ++ [(iendType, [])]) ∧
    extract_chunks_from_png (framePNG (body ++ [(iendType, [])]))
      = some body := by
  constructor
  · have h := extract_frame body garbage hgood
    rw [if_neg hg] at h
    exact h
  · have h := extract_frame body [] hgood
    simpa using h

/-! ### Reposition idempotence (claim C5) -/

/-- C5: on a PNG buffer (well-formed chunk stream, terminal chunk last)
that already contains a pHYs chunk and an sBIT chunk, the Reposition step
skips both insertions and returns the buffer unchanged; running it twice
changes nothing either — no duplicate chunks are inserted and existing
payloads take precedence over the synthesized defaults. -/
theorem C5_reposition_idempotent (body : List Chunk)
    (hgood : ∀ c ∈ body, c.1.length = 4 ∧ c.2.length < 2 ^ 32 ∧ ¬ c.1 = iendType)
    (hp : physType ∈ body.map Prod.fst) (hs : sbitType ∈ body.map Prod.fst) :
    reposition (framePNG (body ++ [(iendType, [])]))
      = some (framePNG (body ++ [(iendType, [])])) ∧
    (reposition (framePNG (body ++ [(iendType, [])]))).bind reposition
      = some (framePNG (body ++ [(iendType, [])])) := by
  have hext : extract_chunks_from_png (framePNG (body ++ [(iendType, [])])) = some body := by
    have h := extract_frame body [] hgood
    simpa using h
  have hanyp : (body.any fun c => decide (c.1 = physType)) = true := by
    rw [List.any_eq_true]
    obtain ⟨c, hc, hceq⟩ := List.mem_map.mp hp
    exact ⟨c, hc, by simp [hceq]⟩
  have hanys : (body.any fun c => decide (c.1 = sbitType)) = true := by
    rw [List.any_eq_true]
    obtain ⟨c, hc, hceq⟩ := List.mem_map.mp hs
    exact ⟨c, hc, by simp [hceq]⟩
  have h1 : reposition (framePNG (body ++ [(iendType, [])]))
      = some (framePNG (body ++ [(iendType, [])])) := by
    rw [reposition, hext]
    simp [hanyp, hanys]
  refine ⟨h1, ?_⟩
  rw [h1]
  exact h1

/-! ### Chunk encoding layout (claim C6) -/

theorem crc32Step_lt (c : Nat) (h : c < 2 ^ 32) : crc32Step c < 2 ^ 32 := by
  rw [crc32Step]
  split
  · exact Nat.xor_lt_two_pow (by norm_num) (by omega)
  · omega

theorem crc32Byte_lt (c b : Nat) (hc : c < 2 ^ 32) (hb : b < 256) :
    crc32Byte c b < 2 ^ 32 := by
  have h0 : c ^^^ b < 2 ^ 32 := Nat.xor_lt_two_pow hc (by omega)
  exact crc32Step_lt _ (crc32Step_lt _ (crc32Step_lt _ (crc32Step_lt _
    (crc32Step_lt _ (crc32Step_lt _ (crc32Step_lt _ (crc32Step_lt _ h0)))))))

theorem crc32_foldl_lt (l : List Nat) : ∀ acc : Nat, acc < 2 ^ 32 → (∀ b ∈ l, b < 256) →
    l.foldl crc32Byte acc < 2 ^ 32 := by
  induction l with
  | nil => intro acc hacc _; simpa using hacc
  | cons b t ih =>
    intro acc hacc hb
    rw [List.foldl_cons]
    exact ih _ (crc32Byte_lt acc b hacc (hb b (List.mem_cons_self _ _)))
      (fun x hx => hb x (List.mem_cons_of_mem _ hx))

theorem crc32_lt (l : List Nat) (hb : ∀ b ∈ l, b < 256) : crc32 l < 2 ^ 32 := by
  rw [crc32]
  exact Nat.xor_lt_two_pow (crc32_foldl_lt l _ (by norm_num) hb) (by norm_num)

/-- C6: for a 4-byte type tag and a payload of byte values whose length
fits the 32-bit length field, the encoder emits the payload length as 4
big-endian bytes, the type, the payload, and the CRC-32 of type ++ payload
as 4 big-endian bytes; in particular the CRC field (the 4 bytes at offset
`8 + payload length`) decodes to exactly `crc32 (type ++ payload)`. -/
theorem C6_encode_layout (t p : List Nat) (h4 : t.length = 4) (hlen : p.length < 2 ^ 32)
    (hb : ∀ b ∈ t ++ p, b < 256) :
    create_png_chunk t p = pack32 p.length ++ t ++ p ++ pack32 (crc32 (t ++ p)) ∧
    bytesToNatBE ((create_png_chunk t p).drop (8 + p.length)) = crc32 (t ++ p) := by
  have hc : crc32 (t ++ p) < 2 ^ 32 := crc32_lt _ hb
  have hmod : crc32 (t ++ p) % 2 ^ 32 = crc32 (t ++ p) := Nat.mod_eq_of_lt hc
  constructor
  · rw [create_png_chunk, hmod]
  · rw [create_png_chunk, hmod]
    have hshape : pack32 p.length ++ t ++ p ++ pack32 (crc32 (t ++ p))
        = pack32 p.length ++ (t ++ (p ++ pack32 (crc32 (t ++ p)))) := by
      simp [List.append_assoc]
    have hsplit : (8 : Nat) + p.length = 4 + (4 + p.length) := by omega
    rw [hshape, hsplit, drop_append_add (pack32 p.length) _ 4 (4 + p.length) (pack32_length _),
      drop_append_add t _ 4 p.length h4, drop_append_len p _ p.length rfl,
      bytesToNatBE_pack32 _ hc]

/-! ### File-system lemmas and the orchestrator claims (C7, C8, C9) -/

theorem find?_filter_ne (l : List (String × List Nat)) (p q : String) (h : ¬ p = q) :
    (l.filter (fun e => ¬ e.1 = q)).find? (fun e => e.1 = p)
      = l.find? (fun e => e.1 = p) := by
  induction l with
  | nil => rfl
  | cons e t ih =>
    by_cases heq : e.1 = q
    · have hep : ¬ e.1 = p := by rw [heq]; exact fun hh => h hh.symm
      rw [List.filter_cons, if_neg (by simp [heq]),
        List.find?_cons_of_neg _ (by simp [hep])]
      exact ih
    · rw [List.filter_cons, if_pos (by simp [heq])]
      by_cases hep : e.1 = p
      · rw [List.find?_cons_of_pos _ (by simp [hep]),
          List.find?_cons_of_pos _ (by simp [hep])]
      · rw [List.find?_cons_of_neg _ (by simp [hep]),
          List.find?_cons_of_neg _ (by simp [hep])]
        exact ih

theorem FS.read_write (fs : FS) (p : String) (b : List Nat) :
    (fs.write p b).read p = some b := by
  rw [FS.write, FS.read, List.find?_cons_of_pos _ (by simp)]
  rfl

theorem FS.read_write_ne (fs : FS) (p q : String) (b : List Nat) (h : ¬ p = q) :
    (fs.write q b).read p = fs.read p := by
  rw [FS.write, FS.read, List.find?_cons_of_neg _ (by simp; exact fun hh => h hh.symm),
    find?_filter_ne _ _ _ h]
  rfl

theorem FS.read_remove (fs : FS) (p : String) : (fs.remove p).read p = none := by
  rw [FS.remove, FS.read]
  rw [List.find?_eq_none.mpr]
  · rfl
  · intro e he
    have := (List.mem_filter.mp he).2
    simpa using this

theorem FS.read_remove_ne (fs : FS) (p q : String) (h : ¬ p = q) :
    (fs.remove q).read p = fs.read p := by
  rw [FS.remove, FS.read, find?_filter_ne _ _ _ h]
  rfl

theorem string_append_ne (o s : String) (h : 0 < s.length) : ¬ o = o ++ s := by
  intro he
  have := congrArg String.length he
  rw [String.length_append] at this
  omega

theorem string_append_ne_append (o s t : String) (h : ¬ s.length = t.length) :
    ¬ o ++ s = o ++ t := by
  intro he
  have := congrArg String.length he
  rw [String.length_append, String.length_append] at this
  omega

/-- C7: whenever the external metadata tool exits non-zero or is missing
from the execution path (and the pipeline reaches the tool invocation), the
conversion returns `None`, the intermediate temporary `<output>.temp1`
written before the invocation is removed, and the destination file is
never written (its prior contents, or absence, are preserved). -/
theorem C7_tool_failure_no_partial_output (batch : Bool) (outputPath : String)
    (env : ConvEnv) (fs0 : FS)
    (hsig : (if env.inputBytes.take 8 = pngSignature then env.inputBytes
             else env.pilPng).take 8 = pngSignature)
    (hfail : env.exiftool = ExifOutcome.exitNonZero ∨
             env.exiftool = ExifOutcome.toolNotFound) :
    (convert batch outputPath env fs0).2.1 = ConvRet.failed ∧
    (convert batch outputPath env fs0).1.read (outputPath ++ ".temp1") = none ∧
    (convert batch outputPath env fs0).1.read outputPath = fs0.read outputPath := by
  have hout_t1 : ¬ outputPath = outputPath ++ ".temp1" :=
    string_append_ne outputPath ".temp1" (by decide)
  have hout_tp : ¬ outputPath = outputPath ++ ".temp_png" :=
    string_append_ne outputPath ".temp_png" (by decide)
  by_cases hpng : env.inputBytes.take 8 = pngSignature
  · have hext : extract_chunks_from_png env.inputBytes
        = some (extractLoop env.inputBytes 8 env.inputBytes.length) := by
      rw [extract_chunks_from_png, if_pos hpng]
    rcases hfail with h | h <;>
      simp [convert, hpng, hext, h, FS.read_remove, FS.read_remove_ne _ _ _ hout_t1,
        FS.read_write_ne _ _ _ _ hout_t1]
  · have hsig2 : env.pilPng.take 8 = pngSignature := by
      rw [if_neg hpng] at hsig
      exact hsig
    have hext : extract_chunks_from_png env.pilPng
        = some (extractLoop env.pilPng 8 env.pilPng.length) := by
      rw [extract_chunks_from_png, if_pos hsig2]
    rcases hfail with h | h <;>
      simp [convert, hpng, hext, h, FS.read_remove, FS.read_remove_ne _ _ _ hout_t1,
        FS.read_write_ne _ _ _ _ hout_t1, FS.read_write_ne _ _ _ _ hout_tp]

/-- Oracle environment witnessing the C8 failure path: a non-PNG input
(first bytes are not the signature), a valid PNG produced by the PIL
re-encoder, and an exiftool invocation that exits non-zero. -/
def envC8 : ConvEnv :=
  { inputBytes := [0], pilPng := pngSignature,
    exiftool := ExifOutcome.exitNonZero, orientFix := none }

/-- C8 (code bug): for a non-PNG input whose exiftool invocation exits
non-zero, the conversion returns `None` and removes `<output>.temp1`, but
the format-conversion temporary `<output>.temp_png` written in step 1 is
left behind — the failure path removes only the intermediate file, so not
every temporary artifact is removed before the conversion returns. -/
theorem C8_temp_png_leaked_on_tool_failure :
    (convert false "out.png" envC8 ⟨[]⟩).2.1 = ConvRet.failed ∧
    (convert false "out.png" envC8 ⟨[]⟩).1.read ("out.png" ++ ".temp1") = none ∧
    (convert false "out.png" envC8 ⟨[]⟩).1.read ("out.png" ++ ".temp_png")
      = some pngSignature := by decide

/-- C9: the process-wide batch-mode flag has no correctness effect — for
every output path, oracle environment and starting file system, the final
file system (hence the bytes at the destination) and the returned result
are identical whether the flag is set or not; the flag gates only the
diagnostic log. -/
theorem C9_batch_flag_no_effect (outputPath : String) (env : ConvEnv) (fs0 : FS) :
    (convert true outputPath env fs0).1 = (convert false outputPath env fs0).1 ∧
    (convert true outputPath env fs0).2.1 = (convert false outputPath env fs0).2.1 := by
  by_cases hpng : env.inputBytes.take 8 = pngSignature
  · rcases hE : extract_chunks_from_png env.inputBytes with - | cs
    · simp [convert, hpng, hE]
    · cases hx : env.exiftool with
      | exitNonZero => simp [convert, hpng, hE, hx]
      | toolNotFound => simp [convert, hpng, hE, hx]
      | ok f =>
        rcases hR : reposition (f (assembleClassified (classify cs))) with - | png3
        · simp [convert, hpng, hE, hx, hR]
        · rcases ho : env.orientFix with - | g <;> simp [convert, hpng, hE, hx, hR, ho]
  · rcases hE : extract_chunks_from_png env.pilPng with - | cs
    · simp [convert, hpng, hE]
    · cases hx : env.exiftool with
      | exitNonZero => simp [convert, hpng, hE, hx]
      | toolNotFound => simp [convert, hpng, hE, hx]
      | ok f =>
        rcases hR : reposition (f (assembleClassified (classify cs))) with - | png3
        · simp [convert, hpng, hE, hx, hR]
        · rcases ho : env.orientFix with - | g <;> simp [convert, hpng, hE, hx, hR, ho]

/-! ### Concrete witnesses -/

/-- A concrete 13-byte IHDR payload (1x1, bit depth 8, color type 2). -/
def wIhdrData : List Nat := [0, 0, 0, 1, 0, 0, 0, 1, 8, 2, 0, 0, 0]

/-- Witness for C1 at a concrete two-chunk PNG. -/
theorem C1_witness :
    extract_chunks_from_png (framePNG ([(ihdrType, wIhdrData), (idatType, [7])]
        ++ [(iendType, [])]))
      = some [(ihdrType, wIhdrData), (idatType, [7])] ∧
    ([(ihdrType, wIhdrData), (idatType, [7])].countP (fun c => c.1 = ihdrType) ≤ 1) ∧
    ([(ihdrType, wIhdrData), (idatType, [7])].countP (fun c => c.1 = srgbType) ≤ 1) ∧
    preassemble (framePNG ([(ihdrType, wIhdrData), (idatType, [7])] ++ [(iendType, [])]))
      = some (pngSignature ++ frameChunks
          (specPreassembleList [(ihdrType, wIhdrData), (idatType, [7])])) :=
  ⟨by decide, by decide, by decide,
    C1_preassemble_layout _ [(ihdrType, wIhdrData), (idatType, [7])]
      (by decide) (by decide) (by decide)⟩

/-- Witness for the amended C2 at a concrete one-chunk PNG with and
without one byte of trailing garbage. -/
theorem C2_witness :
    extract_chunks_from_png (framePNG ([(ihdrType, wIhdrData)] ++ [(iendType, [])]) ++ [0])
      = some ([(ihdrType, wIhdrData)] ++ [(iendType, [])]) ∧
    extract_chunks_from_png (framePNG ([(ihdrType, wIhdrData)] ++ [(iendType, [])]))
      = some [(ihdrType, wIhdrData)] :=
  C2_decode_stops_at_terminal [(ihdrType, wIhdrData)] [0] (by decide) (by decide)

/-- Witness for C3: inserting pHYs after an existing eXIf anchor. -/
theorem C3_witness :
    insert_chunk_after
        (framePNG ([(ihdrType, wIhdrData)] ++ (exifType, [1, 2])
          :: ([(idatType, [7])] ++ [(iendType, [])])))
        exifType physType physData
      = framePNG ([(ihdrType, wIhdrData)] ++ (exifType, [1, 2])
          :: (physType, physData) :: ([(idatType, [7])] ++ [(iendType, [])])) ∧
    (([(ihdrType, wIhdrData)] ++ (exifType, [1, 2])
        :: (physType, physData) :: ([(idatType, [7])] ++ [(iendType, [])])).countP
      (fun c => c.1 = physType)) = 1 :=
  C3_insert_after_anchor [(ihdrType, wIhdrData)] [(idatType, [7])] exifType [1, 2]
    physType physData (by decide) (by decide) (by decide) (by decide)

/-- Witness for C4: inserting with an absent anchor splices before the
terminal chunk. -/
theorem C4_witness :
    insert_chunk_after (framePNG ([(ihdrType, wIhdrData)] ++ [(iendType, [])]))
        exifType physType physData
      = framePNG ([(ihdrType, wIhdrData)] ++ [(physType, physData), (iendType, [])]) :=
  C4_insert_fallback [(ihdrType, wIhdrData)] exifType physType physData
    (by decide) (by decide)

/-- Witness for C5 at a buffer already containing pHYs and sBIT. -/
theorem C5_witness :
    reposition (framePNG ([(exifType, [1, 2]), (physType, physData),
        (sbitType, [8, 8, 8])] ++ [(iendType, [])]))
      = some (framePNG ([(exifType, [1, 2]), (physType, physData),
          (sbitType, [8, 8, 8])] ++ [(iendType, [])])) ∧
    (reposition (framePNG ([(exifType, [1, 2]), (physType, physData),
        (sbitType, [8, 8, 8])] ++ [(iendType, [])]))).bind reposition
      = some (framePNG ([(exifType, [1, 2]), (physType, physData),
          (sbitType, [8, 8, 8])] ++ [(iendType, [])])) :=
  C5_reposition_idempotent
    [(exifType, [1, 2]), (physType, physData), (sbitType, [8, 8, 8])]
    (by decide) (by decide) (by decide)

/-- Witness for C6 at the sBIT chunk the orchestrator synthesizes. -/
theorem C6_witness :
    create_png_chunk sbitType [8, 8, 8]
      = pack32 ([8, 8, 8] : List Nat).length ++ sbitType ++ [8, 8, 8]
        ++ pack32 (crc32 (sbitType ++ [8, 8, 8])) ∧
    bytesToNatBE ((create_png_chunk sbitType [8, 8, 8]).drop
        (8 + ([8, 8, 8] : List Nat).length))
      = crc32 (sbitType ++ [8, 8, 8]) :=
  C6_encode_layout sbitType [8, 8, 8] rfl (by decide) (by decide)

/-- Oracle environment for the C7 witness: valid PNG input, exiftool
missing from the execution path. -/
def envC7 : ConvEnv :=
  { inputBytes := pngSignature, pilPng := [],
    exiftool := ExifOutcome.toolNotFound, orientFix := none }

/-- Witness for C7 at a concrete conversion whose metadata tool is
missing. -/
theorem C7_witness :
    (convert false "o.png" envC7 ⟨[]⟩).2.1 = ConvRet.failed ∧
    (convert false "o.png" envC7 ⟨[]⟩).1.read ("o.png" ++ ".temp1") = none ∧
    (convert false "o.png" envC7 ⟨[]⟩).1.read "o.png" = (⟨[]⟩ : FS).read "o.png" :=
  C7_tool_failure_no_partial_output false "o.png" envC7 ⟨[]⟩ (by decide) (Or.inr rfl)

/-- Witness for C10: the terminal chunk's own type as anchor is never
matched and the fallback splice runs. -/
theorem C10_witness :
    findInsertPos (framePNG ([(ihdrType, wIhdrData)] ++ [(iendType, [])])) iendType 8
      (framePNG ([(ihdrType, wIhdrData)] ++ [(iendType, [])])).length = none ∧
    insert_chunk_after (framePNG ([(ihdrType, wIhdrData)] ++ [(iendType, [])]))
        iendType physType physData
      = framePNG ([(ihdrType, wIhdrData)] ++ [(physType, physData), (iendType, [])]) :=
  C10_terminal_anchor_unreachable [(ihdrType, wIhdrData)] physType physData (by decide)
